import Mathlib

/-!
Shallow embedding of the KLStream stream-processing runtime
(event model, bounded MPMC queue, operator context, round-robin
scheduler, runtime coordinator, aggregating sink), translated from the
C++ sources.  Blocking operations are modelled in their single-threaded
semantics: a call that would wait forever (no other thread can make the
wait condition true) is `Option.none`.
-/

namespace KLStream

/-! ### Event model (event.hpp)

The C++ payload is `std::variant<monostate, int64, double, string, blob>`.
`double` is modelled by `Rat`; `int64` by `Int` (signed overflow is UB in
the source, so no wrapping is modelled); a blob by its byte list. -/

inductive Payload where
  | empty : Payload
  | intVal (v : Int) : Payload
  | floatVal (v : Rat) : Payload
  | strVal (s : String) : Payload
  | blob (b : List Nat) : Payload
deriving Repr, DecidableEq, Inhabited

/-- Metadata attached to events (`EventMetadata` in event.hpp).
`timestamp` is a monotone-clock reading, modelled as an abstract `Nat`. -/
structure EventMetadata where
  key : Option Nat
  sequence : Option Nat
  timestamp : Nat
  source_operator : Option String
deriving Repr, DecidableEq, Inhabited

/-- The default `EventMetadata()` constructor: no key, no sequence, no
source, timestamp taken from the clock at construction time (`now`). -/
def EventMetadata.defaultAt (now : Nat) : EventMetadata :=
  { key := none, sequence := none, timestamp := now, source_operator := none }

structure Event where
  payload : Payload
  metadata : EventMetadata
deriving Repr, DecidableEq, Inhabited

/-- The `Event(Payload)` constructor: payload plus default-constructed
metadata stamped with the clock reading `now`. -/
def Event.ofPayload (p : Payload) (now : Nat) : Event :=
  { payload := p, metadata := EventMetadata.defaultAt now }

/-! ### Bounded MPMC queue (queue.hpp) -/

/-- `QueueStats` from queue.hpp. -/
structure QueueStats where
  push_count : Nat := 0
  pop_count : Nat := 0
  push_blocked_count : Nat := 0
  pop_blocked_count : Nat := 0
  current_size : Nat := 0
  capacity : Nat := 0
  high_watermark : Nat := 0
deriving Repr, DecidableEq, Inhabited

/-- `BoundedQueue<Capacity>`: ring buffer with head/tail indices masked by
`capacity - 1` (the template requires the capacity to be a power of two). -/
structure BoundedQueue where
  capacity : Nat
  buffer : List Event
  head : Nat
  tail : Nat
  size : Nat
  closed : Bool
  stats : QueueStats
deriving Repr, DecidableEq, Inhabited

/-- A freshly constructed `BoundedQueue<cap>`: all counters zero, slots
default-constructed. -/
def BoundedQueue.mkFresh (cap : Nat) : BoundedQueue :=
  { capacity := cap
    buffer := List.replicate cap default
    head := 0
    tail := 0
    size := 0
    closed := false
    stats := {} }

/-- Common body of the successful push paths: store at `tail_`, advance
`tail_` with the power-of-two mask, bump `size_`, update the high watermark
and `current_size`. -/
def BoundedQueue.enqueue (q : BoundedQueue) (e : Event) : BoundedQueue :=
  let size := q.size + 1
  { q with
    buffer := q.buffer.set q.tail e
    tail := (q.tail + 1) &&& (q.capacity - 1)
    size := size
    stats := { q.stats with
      high_watermark := if size > q.stats.high_watermark then size else q.stats.high_watermark
      current_size := size } }

/-- Common body of the successful pop paths: read `head_`, advance it with
the mask, decrement `size_`, update `current_size`. -/
def BoundedQueue.dequeue (q : BoundedQueue) : Event × BoundedQueue :=
  let size := q.size - 1
  (q.buffer.getD q.head default,
   { q with
     head := (q.head + 1) &&& (q.capacity - 1)
     size := size
     stats := { q.stats with current_size := size } })

/-- Blocking `push`: bump `push_count`, wait while full and not closed
(in the single-threaded semantics that wait never ends, hence `none`),
return `false` when closed, otherwise enqueue and return `true`. -/
def BoundedQueue.push (q : BoundedQueue) (e : Event) : Option (Bool × BoundedQueue) :=
  let q1 := { q with stats := { q.stats with push_count := q.stats.push_count + 1 } }
  if q1.size = q1.capacity ∧ q1.closed = false then
    none
  else if q1.closed then
    some (false, q1)
  else
    some (true, q1.enqueue e)

/-- `try_push`: fail immediately when full or closed (without touching any
counter), otherwise bump `push_count` and enqueue. -/
def BoundedQueue.try_push (q : BoundedQueue) (e : Event) : Bool × BoundedQueue :=
  if q.size = q.capacity ∨ q.closed = true then
    (false, q)
  else
    let q1 := { q with stats := { q.stats with push_count := q.stats.push_count + 1 } }
    (true, q1.enqueue e)

/-- `push_for`: bump `push_count`; if the wait predicate
`size < capacity ∨ closed` is false it can only time out in the
single-threaded semantics, bumping `push_blocked_count`; otherwise behave
like the tail of the blocking push. -/
def BoundedQueue.push_for (q : BoundedQueue) (e : Event) : Bool × BoundedQueue :=
  let q1 := { q with stats := { q.stats with push_count := q.stats.push_count + 1 } }
  if q1.size < q1.capacity ∨ q1.closed = true then
    if q1.closed then (false, q1) else (true, q1.enqueue e)
  else
    (false, { q1 with stats := { q1.stats with push_blocked_count := q1.stats.push_blocked_count + 1 } })

/-- Blocking `pop`: bump `pop_count`, wait while empty and not closed
(`none` in the single-threaded semantics), return `none`-payload when
drained and closed, otherwise dequeue. -/
def BoundedQueue.pop (q : BoundedQueue) : Option (Option Event × BoundedQueue) :=
  let q1 := { q with stats := { q.stats with pop_count := q.stats.pop_count + 1 } }
  if q1.size = 0 ∧ q1.closed = false then
    none
  else if q1.size = 0 then
    some (none, q1)
  else
    let (e, q2) := q1.dequeue
    some (some e, q2)

/-- `try_pop`: return `none` immediately on an empty queue (no counter
change), otherwise bump `pop_count` and dequeue. -/
def BoundedQueue.try_pop (q : BoundedQueue) : Option Event × BoundedQueue :=
  if q.size = 0 then
    (none, q)
  else
    let q1 := { q with stats := { q.stats with pop_count := q.stats.pop_count + 1 } }
    let (e, q2) := q1.dequeue
    (some e, q2)

/-- `pop_for`: bump `pop_count`; if the wait predicate `size > 0 ∨ closed`
is false it can only time out, bumping `pop_blocked_count`; otherwise
behave like the tail of the blocking pop. -/
def BoundedQueue.pop_for (q : BoundedQueue) : Option Event × BoundedQueue :=
  let q1 := { q with stats := { q.stats with pop_count := q.stats.pop_count + 1 } }
  if q1.size > 0 ∨ q1.closed = true then
    if q1.size = 0 then (none, q1)
    else
      let (e, q2) := q1.dequeue
      (some e, q2)
  else
    (none, { q1 with stats := { q1.stats with pop_blocked_count := q1.stats.pop_blocked_count + 1 } })

/-- `close`: set the closed flag (the condition-variable broadcasts have no
single-threaded effect). -/
def BoundedQueue.close (q : BoundedQueue) : BoundedQueue :=
  { q with closed := true }

/-! ### Queue abstraction: well-formedness and logical contents -/

/-- Structural invariant of the ring buffer: the capacity is the (positive)
power of two required by the template's static assertion, the slot array has
exactly `capacity` entries, `head` is in range, `size` is bounded and `tail`
is `head + size` reduced by the mask. -/
def BoundedQueue.wf (q : BoundedQueue) : Prop :=
  (∃ k, q.capacity = 2 ^ k) ∧
  q.buffer.length = q.capacity ∧
  q.head < q.capacity ∧
  q.size ≤ q.capacity ∧
  q.tail = (q.head + q.size) &&& (q.capacity - 1)

/-- The FIFO contents of the ring: the `size` slots starting at `head`,
in pop order. -/
def BoundedQueue.toList (q : BoundedQueue) : List Event :=
  (List.range q.size).map fun i =>
    q.buffer.getD ((q.head + i) &&& (q.capacity - 1)) default

/-- Driver that pops repeatedly (as a consumer draining a queue would)
until `pop` yields no event or the fuel runs out. -/
def BoundedQueue.drainLoop : BoundedQueue → Nat → List Event × BoundedQueue
  | q, 0 => ([], q)
  | q, fuel + 1 =>
    match q.pop with
    | none => ([], q)
    | some (none, q1) => ([], q1)
    | some (some e, q1) =>
      let r := q1.drainLoop fuel
      (e :: r.1, r.2)

/-! ### Queue operation traces (for the statistics invariants) -/

inductive QueueOp where
  | push (e : Event)
  | try_push (e : Event)
  | push_for (e : Event)
  | pop
  | try_pop
  | pop_for
  | close
deriving Repr, DecidableEq

/-- One queue operation; `none` when the operation blocks forever in the
single-threaded semantics. -/
def BoundedQueue.step (q : BoundedQueue) : QueueOp → Option BoundedQueue
  | .push e => (q.push e).map (·.2)
  | .try_push e => some (q.try_push e).2
  | .push_for e => some (q.push_for e).2
  | .pop => q.pop.map (·.2)
  | .try_pop => some q.try_pop.2
  | .pop_for => some q.pop_for.2
  | .close => some q.close

/-- Run a sequence of queue operations. -/
def BoundedQueue.run (q : BoundedQueue) : List QueueOp → Option BoundedQueue
  | [] => some q
  | op :: ops =>
    match q.step op with
    | none => none
    | some q1 => q1.run ops

/-- The sizes the queue attains after each operation of a run. -/
def BoundedQueue.runSizes (q : BoundedQueue) : List QueueOp → List Nat
  | [] => []
  | op :: ops =>
    match q.step op with
    | none => []
    | some q1 => q1.size :: q1.runSizes ops

/-- Maximum of a list of naturals (0 for the empty list). -/
def maxList (l : List Nat) : Nat := l.foldr max 0

/-! ### Operator context and emission (operator.hpp) -/

/-- `OperatorStats` from operator.hpp. -/
structure OperatorStats where
  events_received : Nat := 0
  events_emitted : Nat := 0
  events_dropped : Nat := 0
  processing_time_ns : Nat := 0
  backpressure_events : Nat := 0
deriving Repr, DecidableEq, Inhabited

/-- `OperatorContext::emit`: deliver the event to every output queue in
declaration order with the blocking push, counting the outputs that
accepted it.  `none` when some blocking push never returns. -/
def emitLoop (e : Event) : List BoundedQueue → Option (Nat × List BoundedQueue)
  | [] => some (0, [])
  | q :: rest =>
    match q.push e with
    | none => none
    | some (ok, q1) =>
      match emitLoop e rest with
      | none => none
      | some (n, rest1) => some ((if ok then n + 1 else n), q1 :: rest1)

/-- Outcome of a blocking push that does not wait (the queue is not full):
`push_count` is bumped, then either the push is refused because the queue
is closed, or the event is enqueued. -/
def BoundedQueue.pushOutcome (q : BoundedQueue) (e : Event) : Bool × BoundedQueue :=
  let q1 := { q with stats := { q.stats with push_count := q.stats.push_count + 1 } }
  if q1.closed then (false, q1) else (true, q1.enqueue e)

/-- `FunctionOperator::process` for a callable of shape
`(event) → payload`: record the reception, call the function, emit a
single event built by the `Event(Payload)` constructor (stamped with the
clock reading `now`), record the emission and the processing time.
Returns the list of events handed to `ctx.emit` together with the updated
operator statistics. -/
def FunctionOperator.process_payload (func : Event → Payload) (now elapsed : Nat)
    (e : Event) (st : OperatorStats) : List Event × OperatorStats :=
  let st1 := { st with events_received := st.events_received + 1 }
  let out := Event.ofPayload (func e) now
  let st2 := { st1 with events_emitted := st1.events_emitted + 1 }
  ([out], { st2 with processing_time_ns := st2.processing_time_ns + elapsed })

/-! ### Round-robin scheduler (scheduler.hpp) -/

/-- `SchedulerStats` from scheduler.hpp. -/
structure SchedulerStats where
  total_scheduled : Nat := 0
  idle_cycles : Nat := 0
  work_stolen : Nat := 0
  backpressure_waits : Nat := 0
deriving Repr, DecidableEq, Inhabited

/-- `OperatorInstance::has_work`: an input queue is present and non-empty.
An instance is represented by its (optional) input queue, which is all the
scheduler inspects. -/
def instHasWork : Option BoundedQueue → Bool
  | none => false
  | some q => q.size ≠ 0

/-- State of `RoundRobinScheduler`: the shared instance list, the
per-worker cursor map (`positions_[w]` default-constructs to 0) and the
statistics. -/
structure RoundRobinScheduler where
  instances : List (Option BoundedQueue)
  positions : Nat → Nat
  stats : SchedulerStats

/-- The probe loop of `RoundRobinScheduler::next`: starting at the cursor,
inspect up to `fuel` instances in cyclic order, advancing the cursor after
each probe; return the first instance (by index) with work, plus the final
cursor. -/
def rrScan (insts : List (Option BoundedQueue)) : Nat → Nat → Option Nat × Nat
  | pos, 0 => (none, pos)
  | pos, fuel + 1 =>
    let idx := pos % insts.length
    if instHasWork (insts.getD idx none) then (some idx, pos + 1)
    else rrScan insts (pos + 1) fuel

/-- `RoundRobinScheduler::next`: an empty instance list returns null at
once; otherwise bump `total_scheduled`, scan up to `instances.length`
probes from this worker's cursor, and bump `idle_cycles` when nothing was
found. -/
def RoundRobinScheduler.next (s : RoundRobinScheduler) (worker_id : Nat) :
    Option Nat × RoundRobinScheduler :=
  if s.instances.isEmpty then
    (none, s)
  else
    let stats1 := { s.stats with total_scheduled := s.stats.total_scheduled + 1 }
    let r := rrScan s.instances (s.positions worker_id) s.instances.length
    let stats2 :=
      if r.1.isNone then { stats1 with idle_cycles := stats1.idle_cycles + 1 }
      else stats1
    (r.1,
     { s with
       positions := fun w => if w = worker_id then r.2 else s.positions w
       stats := stats2 })

/-! ### Runtime coordinator (runtime.hpp / runtime.cpp) -/

inductive SchedulingPolicy where
  | RoundRobin
  | WorkStealing
  | Priority
  | LoadAware
deriving Repr, DecidableEq

/-- `RuntimeConfig` from runtime.hpp. -/
structure RuntimeConfig where
  num_workers : Nat := 0
  default_queue_capacity : Nat := 4096
  scheduling_policy : SchedulingPolicy := .RoundRobin
  enable_metrics : Bool := true
  metrics_interval_ms : Nat := 1000
deriving Repr, DecidableEq

inductive RuntimeState where
  | Created
  | Initialized
  | Running
  | ShuttingDown
  | Stopped
deriving Repr, DecidableEq

/-- `Edge` from runtime.hpp. -/
structure Edge where
  from_operator : String
  to_operator : String
  queue_capacity : Nat := 4096
deriving Repr, DecidableEq, Inhabited

inductive OperatorKind where
  | source
  | sink
  | plain
deriving Repr, DecidableEq

/-- The graph builder, reduced to what `Runtime::init` consumes: the
operators (name and kind, in the map's iteration order) and the declared
edges in declaration order. -/
structure StreamGraphBuilder where
  operators : List (String × OperatorKind)
  edges : List Edge
deriving Repr, DecidableEq

/-- The per-edge queue bookkeeping of `Runtime::init`: the `queues_`
vector (recorded by capacity, the queue's identity being its index), the
`output_queues` per-from-name lists and the `input_queues` per-to-name
map. -/
structure QueueMaps where
  capacities : List Nat
  out_map : String → List Nat
  in_map : String → Option Nat

def QueueMaps.initial : QueueMaps :=
  { capacities := [], out_map := fun _ => [], in_map := fun _ => none }

/-- One iteration of the edge loop in `Runtime::init`:
`auto queue = std::make_shared<Queue>()` creates a `BoundedQueue<4096>`
(the `Queue` alias has a fixed compile-time capacity), appends it to
`queues_` and to `output_queues[from]`, and overwrites
`input_queues[to]`. -/
def QueueMaps.addEdge (m : QueueMaps) (e : Edge) : QueueMaps :=
  let idx := m.capacities.length
  { capacities := m.capacities ++ [4096]
    out_map := fun n => if n = e.from_operator then m.out_map n ++ [idx] else m.out_map n
    in_map := fun n => if n = e.to_operator then some idx else m.in_map n }

def buildQueuesAux : QueueMaps → List Edge → QueueMaps
  | m, [] => m
  | m, e :: es => buildQueuesAux (m.addEdge e) es

/-- The whole edge loop of `Runtime::init`. -/
def buildQueues (edges : List Edge) : QueueMaps :=
  buildQueuesAux QueueMaps.initial edges

/-- An operator instance as wired by `Runtime::init`: its input queue (if
`input_queues` has its name) and its output queues (the `output_queues`
list of its name, added in order). Queues are referred to by index. -/
structure InstanceModel where
  name : String
  kind : OperatorKind
  input : Option Nat
  outputs : List Nat
deriving Repr, DecidableEq

/-- The instance-creation loop of `Runtime::init`. -/
def wireInstances (b : StreamGraphBuilder) : List InstanceModel :=
  let m := buildQueues b.edges
  b.operators.map fun p => ⟨p.1, p.2, m.in_map p.1, m.out_map p.1⟩

/-- The runtime's owned state: lifecycle state, the materialized queues,
the wired instances, the sources (with their `stop_requested` flags) and
the `running_` flag. -/
structure RuntimeM where
  state : RuntimeState
  queues : List BoundedQueue
  instances : List InstanceModel
  sources : List (String × Bool)
  running : Bool

/-- `Runtime(config)`: a fresh runtime in state Created. -/
def Runtime.mk' (_config : RuntimeConfig) : RuntimeM :=
  { state := .Created, queues := [], instances := [], sources := [], running := false }

/-- `Runtime::init`: throws unless the state is Created; otherwise
materialize one fresh `BoundedQueue<4096>` per edge, wire the instances,
record the sources, and move to Initialized.  (The worker-pool and
scheduler construction have no effect on the state modelled here.) -/
def Runtime.init (r : RuntimeM) (b : StreamGraphBuilder) : Except String RuntimeM :=
  if r.state ≠ .Created then
    .error "Runtime already initialized"
  else
    .ok { state := .Initialized
          queues := (buildQueues b.edges).capacities.map BoundedQueue.mkFresh
          instances := wireInstances b
          sources := (b.operators.filter fun p => p.2 = .source).map fun p => (p.1, false)
          running := r.running }

/-- `Runtime::start`: throws unless the state is Initialized; otherwise set
`running_` and move to Running. -/
def Runtime.start (r : RuntimeM) : Except String RuntimeM :=
  if r.state ≠ .Initialized then
    .error "Runtime not initialized"
  else
    .ok { r with running := true, state := .Running }

/-- `Runtime::stop`: returns immediately when the state is not Running;
otherwise request every source to stop, clear `running_`, close every
queue, and move (through ShuttingDown) to Stopped. -/
def Runtime.stop (r : RuntimeM) : RuntimeM :=
  if r.state ≠ .Running then
    r
  else
    { r with
      state := .Stopped
      running := false
      queues := r.queues.map BoundedQueue.close
      sources := r.sources.map fun p => (p.1, true) }

/-! ### Aggregating sink (sink.hpp) -/

/-- Truncation toward zero, the semantics of `static_cast<int64>(double)`
for in-range values; the double is modelled by a rational. -/
def truncToInt (q : Rat) : Int := if 0 ≤ q then ⌊q⌋ else ⌈q⌉

/-- State of `AggregatingSink`. -/
structure AggregatingSink where
  sum : Int
  count : Nat
  min : Int
  max : Int
deriving Repr, DecidableEq

/-- A freshly constructed `AggregatingSink`: min and max start at the
int64 extremes. -/
def AggregatingSink.mk' : AggregatingSink :=
  { sum := 0, count := 0, min := 2 ^ 63 - 1, max := -(2 ^ 63) }

/-- `AggregatingSink::consume`: an int64 payload updates sum, count, min
and max; a double payload adds its truncation to sum and bumps count only;
any other payload is ignored. -/
def AggregatingSink.consume (s : AggregatingSink) (e : Event) : AggregatingSink :=
  match e.payload with
  | .intVal v =>
    { sum := s.sum + v
      count := s.count + 1
      min := if v < s.min then v else s.min
      max := if v > s.max then v else s.max }
  | .floatVal d =>
    { s with sum := s.sum + truncToInt d, count := s.count + 1 }
  | _ => s

/-! ### Helper lemmas -/

theorem mask_eq_mod (k x : Nat) : x &&& (2 ^ k - 1) = x % 2 ^ k :=
  Nat.and_pow_two_sub_one_eq_mod x k

theorem getD_set_self {l : List Event} {i : Nat} (h : i < l.length) (a d : Event) :
    (l.set i a).getD i d = a := by
  simp [List.getD_eq_getElem?_getD, List.getElem?_set_self h]

theorem getD_set_ne {l : List Event} {i j : Nat} (h : i ≠ j) (a d : Event) :
    (l.set i a).getD j d = l.getD j d := by
  simp [List.getD_eq_getElem?_getD, List.getElem?_set_ne h]

theorem ring_index_ne {c h i s : Nat} (hi : i < s) (hs : s < c) :
    (h + i) % c ≠ (h + s) % c := by
  intro heq
  have hmc : i % c = s % c := by
    have : (h + i) % c = (h + s) % c := heq
    have h1 : (i : Nat) ≡ s [MOD c] := (Nat.ModEq.add_left_cancel' h this)
    exact h1
  rw [Nat.mod_eq_of_lt (lt_trans hi hs), Nat.mod_eq_of_lt hs] at hmc
  omega

theorem buildQueuesAux_capacities (m : QueueMaps) (es : List Edge) :
    (buildQueuesAux m es).capacities = m.capacities ++ List.replicate es.length 4096 := by
  induction es generalizing m with
  | nil => simp [buildQueuesAux]
  | cons e es ih =>
    simp [buildQueuesAux, ih, QueueMaps.addEdge, List.replicate_succ]

theorem buildQueues_capacities (edges : List Edge) :
    (buildQueues edges).capacities = List.replicate edges.length 4096 := by
  simp [buildQueues, buildQueuesAux_capacities, QueueMaps.initial]

/-- Queue indices of the edges leaving operator `n`, in declaration order,
when `base` queues were already created before these edges. -/
def outIdxFrom (base : Nat) (n : String) : List Edge → List Nat
  | [] => []
  | e :: es => (if n = e.from_operator then [base] else []) ++ outIdxFrom (base + 1) n es

/-- First-priority choice (the left option overrides the right). -/
def orDefault : Option Nat → Option Nat → Option Nat
  | some x, _ => some x
  | none, y => y

/-- Queue index of the last edge entering operator `n`, when `base` queues
were already created before these edges. -/
def lastInIdxFrom (base : Nat) (n : String) : List Edge → Option Nat
  | [] => none
  | e :: es =>
    orDefault (lastInIdxFrom (base + 1) n es)
      (if n = e.to_operator then some base else none)

theorem orDefault_none_right (x : Option Nat) : orDefault x none = x := by
  cases x <;> rfl

theorem orDefault_none_left (y : Option Nat) : orDefault none y = y := rfl

theorem orDefault_if (P : Prop) [Decidable P] (x : Nat) (y : Option Nat) :
    orDefault (if P then some x else none) y = if P then some x else y := by
  split <;> rfl

theorem buildQueuesAux_out_map (m : QueueMaps) (es : List Edge) (n : String) :
    (buildQueuesAux m es).out_map n =
      m.out_map n ++ outIdxFrom m.capacities.length n es := by
  induction es generalizing m with
  | nil => simp [buildQueuesAux, outIdxFrom]
  | cons e es ih =>
    have hlen : (m.addEdge e).capacities.length = m.capacities.length + 1 := by
      simp [QueueMaps.addEdge]
    rw [buildQueuesAux, ih, hlen, outIdxFrom]
    by_cases hc : n = e.from_operator <;>
      simp [QueueMaps.addEdge, hc, List.append_assoc]

theorem buildQueuesAux_in_map (m : QueueMaps) (es : List Edge) (n : String) :
    (buildQueuesAux m es).in_map n =
      orDefault (lastInIdxFrom m.capacities.length n es) (m.in_map n) := by
  induction es generalizing m with
  | nil => simp [buildQueuesAux, lastInIdxFrom, orDefault]
  | cons e es ih =>
    have hlen : (m.addEdge e).capacities.length = m.capacities.length + 1 := by
      simp [QueueMaps.addEdge]
    rw [buildQueuesAux, ih, hlen, lastInIdxFrom]
    cases hR : lastInIdxFrom (m.capacities.length + 1) n es with
    | some t => rfl
    | none =>
      show (m.addEdge e).in_map n = _
      rw [orDefault_none_left, orDefault_if]
      simp only [QueueMaps.addEdge]

theorem buildQueues_out_map (edges : List Edge) (n : String) :
    (buildQueues edges).out_map n = outIdxFrom 0 n edges := by
  rw [buildQueues, buildQueuesAux_out_map]
  simp [QueueMaps.initial]

theorem buildQueues_in_map (edges : List Edge) (n : String) :
    (buildQueues edges).in_map n = lastInIdxFrom 0 n edges := by
  rw [buildQueues, buildQueuesAux_in_map]
  simp [QueueMaps.initial, orDefault_none_right]

theorem mem_outIdxFrom (es : List Edge) (i : Nat) (h : i < es.length) :
    ∀ base, (base + i) ∈ outIdxFrom base ((es.getD i default).from_operator) es := by
  induction es generalizing i with
  | nil => simp at h
  | cons e es ih =>
    intro base
    cases i with
    | zero =>
      simp [outIdxFrom]
    | succ i =>
      have hi : i < es.length := by simpa using h
      have := ih i hi (base + 1)
      rw [outIdxFrom]
      refine List.mem_append_right _ ?_
      simpa [Nat.add_assoc, Nat.add_comm 1 i] using this

theorem lastInIdxFrom_none (es : List Edge) (n : String) :
    ∀ base, lastInIdxFrom base n es = none →
      ∀ j, j < es.length → n ≠ (es.getD j default).to_operator := by
  induction es with
  | nil => intro base _ j hj; simp at hj
  | cons e es ih =>
    intro base h j hj
    rw [lastInIdxFrom] at h
    cases hR : lastInIdxFrom (base + 1) n es with
    | some t => rw [hR] at h; exact Option.noConfusion h
    | none =>
      rw [hR, orDefault_none_left] at h
      by_cases hc : n = e.to_operator
      · rw [if_pos hc] at h; exact Option.noConfusion h
      · cases j with
        | zero => simpa using hc
        | succ j =>
          have hj' : j < es.length := by simpa using hj
          simpa using ih (base + 1) hR j hj'

theorem lastInIdxFrom_spec (es : List Edge) (n : String) :
    ∀ base t, lastInIdxFrom base n es = some t →
      base ≤ t ∧ t - base < es.length ∧
      n = (es.getD (t - base) default).to_operator ∧
      ∀ j, t - base < j → j < es.length → n ≠ (es.getD j default).to_operator := by
  induction es with
  | nil => intro base t h; exact Option.noConfusion h
  | cons e es ih =>
    intro base t h
    rw [lastInIdxFrom] at h
    cases hR : lastInIdxFrom (base + 1) n es with
    | some u =>
      rw [hR] at h
      have ht : t = u := by cases h; rfl
      subst ht
      obtain ⟨hle, hlt, hto, hlast⟩ := ih (base + 1) t hR
      have h1 : base ≤ t := le_trans (Nat.le_succ base) hle
      have h2 : t - base = (t - (base + 1)) + 1 := by omega
      refine ⟨h1, by simp; omega, by rw [h2]; simpa using hto, ?_⟩
      intro j hj hjlen
      cases j with
      | zero => omega
      | succ j =>
        have : t - (base + 1) < j := by omega
        have hjl : j < es.length := by simpa using hjlen
        simpa using hlast j this hjl
    | none =>
      rw [hR, orDefault_none_left] at h
      by_cases hc : n = e.to_operator
      · rw [if_pos hc] at h
        have ht : t = base := by cases h; rfl
        subst ht
        refine ⟨le_refl _, by simp, by simpa using hc, ?_⟩
        intro j hj hjlen
        cases j with
        | zero => omega
        | succ j =>
          have hjl : j < es.length := by simpa using hjlen
          simpa using lastInIdxFrom_none es n (t + 1) hR j hjl
      · rw [if_neg hc] at h
        exact Option.noConfusion h

/-! ### High-watermark invariant machinery (for C10) -/

/-- The statistics invariant maintained by every queue operation: the live
size and the (possibly stale) `current_size` statistic never exceed the
high watermark. -/
def statsInv (q : BoundedQueue) : Prop :=
  q.size ≤ q.stats.high_watermark ∧ q.stats.current_size ≤ q.stats.high_watermark

theorem step_hw (q : BoundedQueue) (op : QueueOp) (q' : BoundedQueue)
    (hinv : statsInv q) (h : q.step op = some q') :
    q'.stats.high_watermark = max q.stats.high_watermark q'.size ∧ statsInv q' := by
  obtain ⟨h1, h2⟩ := hinv
  cases op with
  | push e =>
    simp only [BoundedQueue.step, BoundedQueue.push] at h
    split at h
    · simp at h
    · split at h
      · cases h
        exact ⟨(Nat.max_eq_left h1).symm, h1, h2⟩
      · cases h
        refine ⟨?_, ?_, ?_⟩
        · show (if q.size + 1 > q.stats.high_watermark then q.size + 1
              else q.stats.high_watermark) = max q.stats.high_watermark (q.size + 1)
          rw [Nat.max_def]; split_ifs <;> omega
        · show q.size + 1 ≤ (if q.size + 1 > q.stats.high_watermark then q.size + 1
              else q.stats.high_watermark)
          split_ifs <;> omega
        · show q.size + 1 ≤ (if q.size + 1 > q.stats.high_watermark then q.size + 1
              else q.stats.high_watermark)
          split_ifs <;> omega
  | try_push e =>
    simp only [BoundedQueue.step, BoundedQueue.try_push] at h
    split at h
    · cases h
      exact ⟨(Nat.max_eq_left h1).symm, h1, h2⟩
    · cases h
      refine ⟨?_, ?_, ?_⟩
      · show (if q.size + 1 > q.stats.high_watermark then q.size + 1
            else q.stats.high_watermark) = max q.stats.high_watermark (q.size + 1)
        rw [Nat.max_def]; split_ifs <;> omega
      · show q.size + 1 ≤ (if q.size + 1 > q.stats.high_watermark then q.size + 1
            else q.stats.high_watermark)
        split_ifs <;> omega
      · show q.size + 1 ≤ (if q.size + 1 > q.stats.high_watermark then q.size + 1
            else q.stats.high_watermark)
        split_ifs <;> omega
  | push_for e =>
    simp only [BoundedQueue.step, BoundedQueue.push_for] at h
    split at h
    · split at h
      · cases h
        exact ⟨(Nat.max_eq_left h1).symm, h1, h2⟩
      · cases h
        refine ⟨?_, ?_, ?_⟩
        · show (if q.size + 1 > q.stats.high_watermark then q.size + 1
              else q.stats.high_watermark) = max q.stats.high_watermark (q.size + 1)
          rw [Nat.max_def]; split_ifs <;> omega
        · show q.size + 1 ≤ (if q.size + 1 > q.stats.high_watermark then q.size + 1
              else q.stats.high_watermark)
          split_ifs <;> omega
        · show q.size + 1 ≤ (if q.size + 1 > q.stats.high_watermark then q.size + 1
              else q.stats.high_watermark)
          split_ifs <;> omega
    · cases h
      exact ⟨(Nat.max_eq_left h1).symm, h1, h2⟩
  | pop =>
    simp only [BoundedQueue.step, BoundedQueue.pop, BoundedQueue.dequeue] at h
    split at h
    · simp at h
    · split at h
      · cases h
        exact ⟨(Nat.max_eq_left h1).symm, h1, h2⟩
      · cases h
        refine ⟨?_, ?_, ?_⟩
        · show q.stats.high_watermark = max q.stats.high_watermark (q.size - 1)
          rw [Nat.max_def]; split_ifs <;> omega
        · show q.size - 1 ≤ q.stats.high_watermark
          omega
        · show q.size - 1 ≤ q.stats.high_watermark
          omega
  | try_pop =>
    simp only [BoundedQueue.step, BoundedQueue.try_pop, BoundedQueue.dequeue] at h
    split at h
    · cases h
      exact ⟨(Nat.max_eq_left h1).symm, h1, h2⟩
    · cases h
      refine ⟨?_, ?_, ?_⟩
      · show q.stats.high_watermark = max q.stats.high_watermark (q.size - 1)
        rw [Nat.max_def]; split_ifs <;> omega
      · show q.size - 1 ≤ q.stats.high_watermark
        omega
      · show q.size - 1 ≤ q.stats.high_watermark
        omega
  | pop_for =>
    simp only [BoundedQueue.step, BoundedQueue.pop_for, BoundedQueue.dequeue] at h
    split at h
    · split at h
      · cases h
        exact ⟨(Nat.max_eq_left h1).symm, h1, h2⟩
      · cases h
        refine ⟨?_, ?_, ?_⟩
        · show q.stats.high_watermark = max q.stats.high_watermark (q.size - 1)
          rw [Nat.max_def]; split_ifs <;> omega
        · show q.size - 1 ≤ q.stats.high_watermark
          omega
        · show q.size - 1 ≤ q.stats.high_watermark
          omega
    · cases h
      exact ⟨(Nat.max_eq_left h1).symm, h1, h2⟩
  | close =>
    simp only [BoundedQueue.step, BoundedQueue.close] at h
    cases h
    exact ⟨(Nat.max_eq_left h1).symm, h1, h2⟩

theorem run_hw (ops : List QueueOp) (q q' : BoundedQueue)
    (hinv : statsInv q) (h : q.run ops = some q') :
    q'.stats.high_watermark = max q.stats.high_watermark (maxList (q.runSizes ops)) ∧
    statsInv q' := by
  induction ops generalizing q with
  | nil =>
    simp only [BoundedQueue.run] at h
    cases h
    simpa [BoundedQueue.runSizes, maxList] using hinv
  | cons op ops ih =>
    rw [BoundedQueue.run] at h
    cases hs : q.step op with
    | none => rw [hs] at h; exact Option.noConfusion h
    | some q1 =>
      rw [hs] at h
      obtain ⟨hq1hw, hq1inv⟩ := step_hw q op q1 hinv hs
      obtain ⟨hhw, hinv'⟩ := ih q1 hq1inv h
      refine ⟨?_, hinv'⟩
      rw [hhw, hq1hw, BoundedQueue.runSizes, hs]
      show max (max q.stats.high_watermark q1.size) (maxList (q1.runSizes ops)) =
        max q.stats.high_watermark (maxList (q1.size :: q1.runSizes ops))
      rw [max_assoc]
      rfl

theorem run_append (q : BoundedQueue) (l1 l2 : List QueueOp) :
    q.run (l1 ++ l2) = (q.run l1).bind fun q1 => q1.run l2 := by
  induction l1 generalizing q with
  | nil => rfl
  | cons op l1 ih =>
    rw [List.cons_append, BoundedQueue.run]
    cases hs : q.step op with
    | none => rw [BoundedQueue.run, hs]; rfl
    | some q1 => rw [BoundedQueue.run, hs]; exact ih q1

theorem statsInv_mkFresh (cap : Nat) : statsInv (BoundedQueue.mkFresh cap) :=
  ⟨Nat.le_refl 0, Nat.le_refl 0⟩

/-! ## Claim C10 -/

/-- Claim C10: starting from a fresh queue, after any terminating sequence
of queue operations the `high_watermark` statistic equals the maximum size
the queue has attained, it dominates the `current_size` statistic, and it
is monotonically non-decreasing along every prefix of the run. -/
theorem queue_high_watermark_spec (cap : Nat) (ops : List QueueOp) (q' : BoundedQueue)
    (h : (BoundedQueue.mkFresh cap).run ops = some q') :
    q'.stats.high_watermark = maxList ((BoundedQueue.mkFresh cap).runSizes ops) ∧
    q'.stats.current_size ≤ q'.stats.high_watermark ∧
    (∀ ops1 ops2 q1, ops = ops1 ++ ops2 →
      (BoundedQueue.mkFresh cap).run ops1 = some q1 →
      q1.stats.high_watermark ≤ q'.stats.high_watermark) := by
  obtain ⟨hhw, hinv⟩ := run_hw ops (BoundedQueue.mkFresh cap) q' (statsInv_mkFresh cap) h
  refine ⟨?_, hinv.2, ?_⟩
  · rw [hhw]
    exact Nat.zero_max _
  · intro ops1 ops2 q1 hsplit hrun1
    subst hsplit
    rw [run_append, hrun1] at h
    have h2 : q1.run ops2 = some q' := h
    have hinv1 := (run_hw ops1 (BoundedQueue.mkFresh cap) q1 (statsInv_mkFresh cap) hrun1).2
    rw [(run_hw ops2 q1 q' hinv1 h2).1]
    exact le_max_left _ _

/-- Witness for C10: a capacity-4 queue after two try-pushes and a
try-pop; the watermark is the maximal attained size 2, not the current
size 1, and it bounds `current_size`. -/
theorem queue_high_watermark_spec_witness :
    ((((BoundedQueue.mkFresh 4).run
        [QueueOp.try_push (Event.ofPayload (.intVal 1) 0),
         QueueOp.try_push (Event.ofPayload (.intVal 2) 0),
         QueueOp.try_pop]).getD default).stats.high_watermark =
      maxList ((BoundedQueue.mkFresh 4).runSizes
        [QueueOp.try_push (Event.ofPayload (.intVal 1) 0),
         QueueOp.try_push (Event.ofPayload (.intVal 2) 0),
         QueueOp.try_pop])) ∧
    (((BoundedQueue.mkFresh 4).run
        [QueueOp.try_push (Event.ofPayload (.intVal 1) 0),
         QueueOp.try_push (Event.ofPayload (.intVal 2) 0),
         QueueOp.try_pop]).getD default).stats.current_size ≤
      ((((BoundedQueue.mkFresh 4).run
        [QueueOp.try_push (Event.ofPayload (.intVal 1) 0),
         QueueOp.try_push (Event.ofPayload (.intVal 2) 0),
         QueueOp.try_pop]).getD default).stats.high_watermark) := by
  have h := queue_high_watermark_spec 4
    [QueueOp.try_push (Event.ofPayload (.intVal 1) 0),
     QueueOp.try_push (Event.ofPayload (.intVal 2) 0),
     QueueOp.try_pop]
    (((BoundedQueue.mkFresh 4).run
        [QueueOp.try_push (Event.ofPayload (.intVal 1) 0),
         QueueOp.try_push (Event.ofPayload (.intVal 2) 0),
         QueueOp.try_pop]).getD default)
    rfl
  exact ⟨h.1, h.2.1⟩

/-! ### Ring-buffer content lemmas (for C4) -/

/-- The successful-pop state: head advanced under the mask, size
decremented, `pop_count` and `current_size` updated. -/
def BoundedQueue.popNext (q : BoundedQueue) : BoundedQueue :=
  { q with
    head := (q.head + 1) &&& (q.capacity - 1)
    size := q.size - 1
    stats := { q.stats with
      pop_count := q.stats.pop_count + 1
      current_size := q.size - 1 } }

theorem toList_length (q : BoundedQueue) : q.toList.length = q.size := by
  simp [BoundedQueue.toList]

theorem getD_zero_cons_tail {l : List Event} (h : 0 < l.length) (d : Event) :
    l.getD 0 d :: l.tail = l := by
  cases l with
  | nil => simp at h
  | cons a l => rfl

theorem toList_getD_zero (q : BoundedQueue) (hwf : q.wf) (hpos : 0 < q.size) :
    q.toList.getD 0 default = q.buffer.getD q.head default := by
  obtain ⟨⟨k, hcap⟩, hbuf, hhead, hsize, htail⟩ := hwf
  unfold BoundedQueue.toList
  obtain ⟨s, hs⟩ : ∃ s, q.size = s + 1 := ⟨q.size - 1, by omega⟩
  rw [hs, List.range_succ_eq_map, List.map_cons, List.getD_cons_zero, Nat.add_zero,
    hcap, mask_eq_mod, Nat.mod_eq_of_lt (hcap ▸ hhead)]

theorem push_closed_eq (q : BoundedQueue) (e : Event) (hcl : q.closed = true) :
    q.push e = some (false,
      { q with stats := { q.stats with push_count := q.stats.push_count + 1 } }) := by
  have h1 : ¬(q.size = q.capacity ∧ q.closed = false) := by
    rintro ⟨-, hc⟩
    rw [hcl] at hc
    exact Bool.noConfusion hc
  simp [BoundedQueue.push, h1, hcl]

theorem pop_nonempty_eq (q : BoundedQueue) (hpos : 0 < q.size) :
    q.pop = some (some (q.buffer.getD q.head default), q.popNext) := by
  have h1 : ¬(q.size = 0 ∧ q.closed = false) := by
    rintro ⟨hc, -⟩
    omega
  have h2 : ¬(q.size = 0) := by omega
  simp [BoundedQueue.pop, BoundedQueue.dequeue, h1, h2, BoundedQueue.popNext]

theorem pop_empty_closed_eq (q : BoundedQueue) (hcl : q.closed = true) (hempty : q.size = 0) :
    q.pop = some (none,
      { q with stats := { q.stats with pop_count := q.stats.pop_count + 1 } }) := by
  have h1 : ¬(q.size = 0 ∧ q.closed = false) := by
    rintro ⟨-, hc⟩
    rw [hcl] at hc
    exact Bool.noConfusion hc
  simp [BoundedQueue.pop, h1, hempty, hcl]

theorem popNext_wf (q : BoundedQueue) (hwf : q.wf) (hpos : 0 < q.size) :
    q.popNext.wf := by
  obtain ⟨⟨k, hcap⟩, hbuf, hhead, hsize, htail⟩ := hwf
  have hcpos : 0 < q.capacity := by
    rw [hcap]; exact pow_pos (by norm_num) k
  refine ⟨⟨k, hcap⟩, hbuf, ?_, ?_, ?_⟩
  · show ((q.head + 1) &&& (q.capacity - 1)) < q.capacity
    rw [hcap, mask_eq_mod]
    exact Nat.mod_lt _ (hcap ▸ hcpos)
  · show q.size - 1 ≤ q.capacity
    omega
  · show q.tail = (((q.head + 1) &&& (q.capacity - 1)) + (q.size - 1)) &&& (q.capacity - 1)
    rw [htail, hcap]
    simp only [mask_eq_mod]
    rw [Nat.mod_add_mod]
    congr 1
    omega

theorem popNext_toList (q : BoundedQueue) (hwf : q.wf) (hpos : 0 < q.size) :
    q.popNext.toList = q.toList.tail := by
  obtain ⟨⟨k, hcap⟩, hbuf, hhead, hsize, htail⟩ := hwf
  obtain ⟨s, hs⟩ : ∃ s, q.size = s + 1 := ⟨q.size - 1, by omega⟩
  unfold BoundedQueue.toList
  show (List.range (q.size - 1)).map
      (fun i => q.buffer.getD
        ((((q.head + 1) &&& (q.capacity - 1)) + i) &&& (q.capacity - 1)) default) =
    ((List.range q.size).map fun i =>
      q.buffer.getD ((q.head + i) &&& (q.capacity - 1)) default).tail
  rw [hs, List.range_succ_eq_map, List.map_cons, List.tail_cons, List.map_map,
    Nat.add_sub_cancel]
  refine List.map_congr_left fun i hi => ?_
  have hidx : (((q.head + 1) &&& (q.capacity - 1)) + i) &&& (q.capacity - 1) =
      (q.head + Nat.succ i) &&& (q.capacity - 1) := by
    rw [hcap]
    simp only [mask_eq_mod]
    rw [Nat.mod_add_mod]
    congr 1
    omega
  rw [hidx]
  rfl

theorem drainLoop_closed (n : Nat) :
    ∀ q : BoundedQueue, q.wf → q.closed = true → q.size = n →
      (q.drainLoop n).1 = q.toList ∧
      (q.drainLoop n).2.size = 0 ∧
      (q.drainLoop n).2.closed = true ∧
      (q.drainLoop n).2.wf := by
  induction n with
  | zero =>
    intro q hwf hcl hsz
    refine ⟨?_, hsz, hcl, hwf⟩
    show ([] : List Event) = q.toList
    unfold BoundedQueue.toList
    rw [hsz]
    rfl
  | succ n ih =>
    intro q hwf hcl hsz
    have hpos : 0 < q.size := by omega
    have hwf' := popNext_wf q hwf hpos
    have htl := popNext_toList q hwf hpos
    have hcl' : q.popNext.closed = true := hcl
    have hsz' : q.popNext.size = n := by
      show q.size - 1 = n
      omega
    obtain ⟨ih1, ih2, ih3, ih4⟩ := ih q.popNext hwf' hcl' hsz'
    rw [BoundedQueue.drainLoop, pop_nonempty_eq q hpos]
    refine ⟨?_, ih2, ih3, ih4⟩
    show q.buffer.getD q.head default :: (q.popNext.drainLoop n).1 = q.toList
    rw [ih1, htl, ← toList_getD_zero q hwf hpos]
    exact getD_zero_cons_tail (by rw [toList_length]; omega) default

/-! ## Claim C4 -/

/-- Claim C4: after `close`, every push is refused (only `push_count` is
bumped) while the buffered events remain poppable in FIFO order until
drained, after which pop returns none; concretely, pushing 1 and 2 into a
fresh capacity-4 queue, closing it, then pushing 3 returns false and the
subsequent pops yield 1, then 2, then none. -/
theorem queue_close_semantics :
    (∀ (q : BoundedQueue) (e : Event), q.closed = true →
      q.push e = some (false,
        { q with stats := { q.stats with push_count := q.stats.push_count + 1 } })) ∧
    (∀ q : BoundedQueue, q.wf → q.closed = true →
      (q.drainLoop q.size).1 = q.toList ∧
      (q.drainLoop q.size).2.pop = some (none,
        { (q.drainLoop q.size).2 with stats := { (q.drainLoop q.size).2.stats with
            pop_count := (q.drainLoop q.size).2.stats.pop_count + 1 } })) ∧
    ((((BoundedQueue.mkFresh 4).run
        [.push (Event.ofPayload (.intVal 1) 0),
         .push (Event.ofPayload (.intVal 2) 0),
         .close]).bind
      fun qc => qc.push (Event.ofPayload (.intVal 3) 0)).map
      (fun r =>
        (r.1,
         (r.2.drainLoop 2).1.map (fun ev => ev.payload),
         ((r.2.drainLoop 2).2.pop).map Prod.fst)) =
      some (false, [Payload.intVal 1, Payload.intVal 2], some none)) := by
  refine ⟨push_closed_eq, ?_, ?_⟩
  · intro q hwf hcl
    obtain ⟨h1, h2, h3, h4⟩ := drainLoop_closed q.size q hwf hcl rfl
    exact ⟨h1, pop_empty_closed_eq _ h3 h2⟩
  · rfl

/-- Witness for C4: the general parts of the theorem applied to a closed
fresh capacity-4 queue. -/
theorem queue_close_semantics_witness :
    ((((BoundedQueue.mkFresh 4).close).push (Event.ofPayload (.intVal 3) 0)).map Prod.fst =
      some false) ∧
    ((((BoundedQueue.mkFresh 4).close).drainLoop ((BoundedQueue.mkFresh 4).close).size).1 =
      ((BoundedQueue.mkFresh 4).close).toList) := by
  constructor
  · rw [queue_close_semantics.1 (BoundedQueue.mkFresh 4).close
      (Event.ofPayload (.intVal 3) 0) rfl]
    rfl
  · exact (queue_close_semantics.2.1 (BoundedQueue.mkFresh 4).close
      ⟨⟨2, rfl⟩, rfl, by decide, by decide, rfl⟩ rfl).1

/-! ## Claim C3 -/

/-- Claim C3 is false on the code: in a graph where operator "c" has two
incoming edges (queue 0 from "a" declared first, queue 1 from "b" declared
second), `input_queues[to] = queue` overwrites, so instance "c" consumes
only queue 1 and queue 0 is not installed as any instance's input. -/
theorem runtime_init_multi_input_counterexample :
    (wireInstances ⟨[("a", .source), ("b", .source), ("c", .sink)],
        [⟨"a", "c", 4096⟩, ⟨"b", "c", 4096⟩]⟩).map InstanceModel.input =
      [none, none, some 1] ∧
    ∀ inst ∈ wireInstances ⟨[("a", .source), ("b", .source), ("c", .sink)],
        [⟨"a", "c", 4096⟩, ⟨"b", "c", 4096⟩]⟩, inst.input ≠ some 0 := by
  constructor
  · rfl
  · decide

/-- Claim C3 (amended): every declared edge materializes to exactly one
queue that is appended to the upstream operator's output list (hence
pushed to by its emit context), but the downstream operator's input queue
is only the queue of its *last* incoming edge in declaration order: any
instance's input edge targets that instance's name and no later edge
targets the same name, so when an operator has several incoming edges the
earlier edges' queues are not consumed by it (nor by anyone). -/
theorem runtime_init_edge_wiring (b : StreamGraphBuilder) :
    (wireInstances b = b.operators.map fun p =>
      ⟨p.1, p.2, lastInIdxFrom 0 p.1 b.edges, outIdxFrom 0 p.1 b.edges⟩) ∧
    (∀ i, i < b.edges.length →
      i ∈ outIdxFrom 0 ((b.edges.getD i default).from_operator) b.edges) ∧
    (∀ inst, inst ∈ wireInstances b → ∀ i, inst.input = some i →
      i < b.edges.length ∧
      (b.edges.getD i default).to_operator = inst.name ∧
      ∀ j, i < j → j < b.edges.length → (b.edges.getD j default).to_operator ≠ inst.name) := by
  refine ⟨?_, ?_, ?_⟩
  · simp only [wireInstances, buildQueues_in_map, buildQueues_out_map]
  · intro i hi
    simpa using mem_outIdxFrom b.edges i hi 0
  · intro inst hmem i hin
    simp only [wireInstances] at hmem
    obtain ⟨p, hp, rfl⟩ := List.mem_map.mp hmem
    rw [show (⟨p.1, p.2, (buildQueues b.edges).in_map p.1,
          (buildQueues b.edges).out_map p.1⟩ : InstanceModel).input =
        (buildQueues b.edges).in_map p.1 from rfl, buildQueues_in_map] at hin
    obtain ⟨-, hlt, hto, hlast⟩ := lastInIdxFrom_spec b.edges p.1 0 i hin
    refine ⟨by simpa using hlt, by simpa using hto.symm, ?_⟩
    intro j hj hjlen heq
    exact hlast j (by simpa using hj) hjlen (by simpa using heq.symm)

/-- Witness for C3: the amended theorem applied to the two-in-edge graph;
instance "c" consumes exactly the second edge, which indeed targets "c". -/
theorem runtime_init_edge_wiring_witness :
    (([⟨"a", "c", 4096⟩, ⟨"b", "c", 4096⟩] : List Edge).getD 1 default).to_operator = "c" := by
  have h := (runtime_init_edge_wiring ⟨[("a", .source), ("b", .source), ("c", .sink)],
      [⟨"a", "c", 4096⟩, ⟨"b", "c", 4096⟩]⟩).2.2 ⟨"c", .sink, some 1, []⟩ (by decide) 1 rfl
  exact h.2.1

/-! ## Claim C1 -/

/-- Claim C1 is false on the code: `Runtime::init` materializes the edge
`("a", "b", queue_capacity := 8)` to a queue of capacity 4096, not of the
edge's declared capacity 8 (the `Queue` alias has a fixed compile-time
capacity and `make_shared<Queue>()` ignores `edge.queue_capacity`). -/
theorem runtime_init_edge_capacity_counterexample :
    ((Runtime.init (Runtime.mk' {}) ⟨[("a", .source), ("b", .sink)], [⟨"a", "b", 8⟩]⟩).toOption.map
        fun r => r.queues.map BoundedQueue.capacity) = some [4096] ∧ (4096 : Nat) ≠ 8 := by
  constructor
  · rfl
  · decide

/-- Claim C1 (amended): for every configuration and every graph, each
declared edge materializes to a queue of the fixed capacity 4096,
regardless of the edge's declared `queue_capacity` and of
`default_queue_capacity`; distinct edges cannot have distinct
capacities. -/
theorem runtime_init_queue_capacities_fixed (cfg : RuntimeConfig) (b : StreamGraphBuilder)
    (r : RuntimeM) (h : Runtime.init (Runtime.mk' cfg) b = .ok r) :
    r.queues.map BoundedQueue.capacity = List.replicate b.edges.length 4096 := by
  have hok : Runtime.init (Runtime.mk' cfg) b =
      .ok { state := .Initialized
            queues := (buildQueues b.edges).capacities.map BoundedQueue.mkFresh
            instances := wireInstances b
            sources := (b.operators.filter fun p => p.2 = .source).map fun p => (p.1, false)
            running := false } := rfl
  rw [hok] at h
  cases h
  show ((buildQueues b.edges).capacities.map BoundedQueue.mkFresh).map BoundedQueue.capacity = _
  rw [List.map_map]
  have hcomp : (BoundedQueue.capacity ∘ BoundedQueue.mkFresh) = id := funext fun c => rfl
  rw [hcomp, List.map_id, buildQueues_capacities]

/-- Witness for C1: the amended theorem applied to a concrete two-node
graph with one edge. -/
theorem runtime_init_queue_capacities_fixed_witness :
    ∃ r, Runtime.init (Runtime.mk' {}) ⟨[("a", .source), ("b", .sink)], [⟨"a", "b", 8⟩]⟩ = .ok r ∧
      r.queues.map BoundedQueue.capacity = List.replicate 1 4096 := by
  refine ⟨_, rfl, ?_⟩
  exact runtime_init_queue_capacities_fixed {} ⟨[("a", .source), ("b", .sink)], [⟨"a", "b", 8⟩]⟩ _ rfl

/-! ## Claim C2 -/

/-- Claim C2 is false on the code: a payload-shape callable's `process`
emits `Event{result}` with freshly default-constructed metadata, not the
input event's metadata — here the input carries key 5, sequence 7,
timestamp 3 and a source name, while the emitted event carries none of
them. -/
theorem functionOperator_payload_metadata_counterexample :
    (FunctionOperator.process_payload (fun _ => Payload.intVal 9) 0 0
        { payload := .intVal 1
          metadata := { key := some 5, sequence := some 7, timestamp := 3,
                        source_operator := some "src" } } {}).1.map Event.metadata ≠
      [{ key := some 5, sequence := some 7, timestamp := 3, source_operator := some "src" }] := by
  decide

/-- Claim C2 (amended): for every callable of shape `(event) → payload`,
`process` on an input event emits exactly one new event whose payload is
the callable's result and whose metadata is freshly default-constructed
(no key, no sequence, no source operator, timestamp taken at emission),
not the input's metadata; reception and emission are each recorded once. -/
theorem functionOperator_payload_emits_fresh_event
    (func : Event → Payload) (now elapsed : Nat) (e : Event) (st : OperatorStats) :
    (FunctionOperator.process_payload func now elapsed e st).1 =
      [{ payload := func e
         metadata := { key := none, sequence := none, timestamp := now,
                       source_operator := none } }] ∧
    (FunctionOperator.process_payload func now elapsed e st).2 =
      { st with events_received := st.events_received + 1
                events_emitted := st.events_emitted + 1
                processing_time_ns := st.processing_time_ns + elapsed } := by
  exact ⟨rfl, rfl⟩

/-! ## Claim C5 -/

/-- Claim C5 is false on the code: with an empty instance list,
`RoundRobinScheduler::next` returns null without incrementing
`total_scheduled` (the claim requires an increment on every call) and
without incrementing `idle_cycles` (the claim requires an increment on
every null return). -/
theorem roundRobin_next_empty_counterexample :
    (RoundRobinScheduler.next ⟨[], fun _ => 0, {}⟩ 0).1 = none ∧
    (RoundRobinScheduler.next ⟨[], fun _ => 0, {}⟩ 0).2.stats.total_scheduled ≠ 0 + 1 ∧
    (RoundRobinScheduler.next ⟨[], fun _ => 0, {}⟩ 0).2.stats.idle_cycles ≠ 0 + 1 := by
  refine ⟨rfl, ?_, ?_⟩ <;> decide

/-- Claim C5 (amended): whenever the instance list is non-empty, each call
to `next` increments `total_scheduled` by exactly one regardless of
outcome, and increments `idle_cycles` by exactly one if and only if the
call returns null; with an empty instance list, `next` returns null and
leaves both counters unchanged. -/
theorem roundRobin_next_stats (s : RoundRobinScheduler) (w : Nat) (h : s.instances ≠ []) :
    ((s.next w).2.stats.total_scheduled = s.stats.total_scheduled + 1) ∧
    ((s.next w).2.stats.idle_cycles =
      if (s.next w).1 = none then s.stats.idle_cycles + 1 else s.stats.idle_cycles) := by
  have hne : s.instances.isEmpty = false := by
    cases hi : s.instances with
    | nil => exact absurd hi h
    | cons a l => rfl
  unfold RoundRobinScheduler.next
  rw [hne]
  simp only [Bool.false_eq_true, if_false]
  cases hr : (rrScan s.instances (s.positions w) s.instances.length).1 <;>
    simp [hr, Option.isNone]

/-- Witness for C5: the amended theorem applied to a scheduler holding one
instance without an input queue. -/
theorem roundRobin_next_stats_witness :
    (RoundRobinScheduler.next ⟨[none], fun _ => 0, {}⟩ 0).2.stats.total_scheduled = 0 + 1 :=
  (roundRobin_next_stats ⟨[none], fun _ => 0, {}⟩ 0 (by simp)).1

/-! ## Claim C6 -/

/-- Claim C6: runtime lifecycle misuse is rejected: `init` on a runtime
not in state Created throws, `start` on a runtime not in state Initialized
throws, and `stop` on a runtime not in state Running returns the runtime
completely unchanged. -/
theorem runtime_lifecycle_misuse (r : RuntimeM) (b : StreamGraphBuilder) :
    (r.state ≠ .Created → Runtime.init r b = .error "Runtime already initialized") ∧
    (r.state ≠ .Initialized → Runtime.start r = .error "Runtime not initialized") ∧
    (r.state ≠ .Running → Runtime.stop r = r) := by
  refine ⟨fun h => ?_, fun h => ?_, fun h => ?_⟩
  · simp [Runtime.init, h]
  · simp [Runtime.start, h]
  · simp [Runtime.stop, h]

/-- Witness for C6: a runtime in state Stopped satisfies all three
hypotheses. -/
theorem runtime_lifecycle_misuse_witness :
    Runtime.init ⟨.Stopped, [], [], [], false⟩ ⟨[], []⟩ = .error "Runtime already initialized" ∧
    Runtime.start ⟨.Stopped, [], [], [], false⟩ = .error "Runtime not initialized" ∧
    Runtime.stop ⟨.Stopped, [], [], [], false⟩ = ⟨.Stopped, [], [], [], false⟩ := by
  have h := runtime_lifecycle_misuse ⟨.Stopped, [], [], [], false⟩ ⟨[], []⟩
  exact ⟨h.1 (by decide), h.2.1 (by decide), h.2.2 (by decide)⟩

/-! ## Claim C7 -/

/-- A blocking push on a non-full queue returns immediately with the
no-wait outcome. -/
theorem push_not_full (q : BoundedQueue) (e : Event) (h : q.size < q.capacity) :
    q.push e = some (q.pushOutcome e) := by
  have hne : ¬(q.size = q.capacity ∧ q.closed = false) := fun hc => absurd hc.1 (Nat.ne_of_lt h)
  simp only [BoundedQueue.push, BoundedQueue.pushOutcome]
  rw [if_neg hne]
  split <;> rfl

theorem exists_closed_of_filter_lt {outs : List BoundedQueue}
    (h : (outs.filter fun q => q.closed = false).length < outs.length) :
    ∃ q ∈ outs, q.closed = true := by
  by_contra hc
  push_neg at hc
  have hall : ∀ q ∈ outs, (fun q => decide (q.closed = false)) q = true := by
    intro q hq
    cases hcl : q.closed
    · simp [hcl]
    · exact absurd hcl (hc q hq)
  rw [List.filter_eq_self.mpr hall] at h
  omega

/-- Claim C7: for output queues `outs` in declaration order, none of them
full, `emit` pushes the event to each queue in order with the blocking
push, returns the number of non-closed outputs (each of which accepted the
event), and a returned count below the output count implies some output
queue was closed. -/
theorem emit_delivers_in_order (outs : List BoundedQueue) (e : Event)
    (h : ∀ q ∈ outs, q.size < q.capacity) :
    emitLoop e outs = some
      ((outs.filter fun q => q.closed = false).length,
       outs.map fun q => (q.pushOutcome e).2) ∧
    ((outs.filter fun q => q.closed = false).length < outs.length →
      ∃ q ∈ outs, q.closed = true) := by
  refine ⟨?_, exists_closed_of_filter_lt⟩
  induction outs with
  | nil => rfl
  | cons q rest ih =>
    have hq : q.size < q.capacity := h q (List.mem_cons_self q rest)
    have hrest := ih fun p hp => h p (List.mem_cons_of_mem q hp)
    rw [emitLoop, push_not_full q e hq, hrest]
    have hout1 : (q.pushOutcome e).1 = !q.closed := by
      simp only [BoundedQueue.pushOutcome]
      cases hcl : q.closed <;> simp [hcl]
    cases hcl : q.closed <;>
      simp [hout1, hcl, List.filter_cons]

/-- Witness for C7: one open and one closed queue of capacity 4; the
count is 1 and the closed queue witnesses the shortfall. -/
theorem emit_delivers_in_order_witness :
    emitLoop (Event.ofPayload (.intVal 5) 0)
        [BoundedQueue.mkFresh 4, (BoundedQueue.mkFresh 4).close] = some
      (1, [((BoundedQueue.mkFresh 4).pushOutcome (Event.ofPayload (.intVal 5) 0)).2,
           (((BoundedQueue.mkFresh 4).close).pushOutcome (Event.ofPayload (.intVal 5) 0)).2]) := by
  have h := emit_delivers_in_order [BoundedQueue.mkFresh 4, (BoundedQueue.mkFresh 4).close]
    (Event.ofPayload (.intVal 5) 0) (by decide)
  rw [h.1]
  rfl

/-! ## Claim C8 -/

/-- Claim C8 is false on the code: a timed-out `push_for` on a full open
queue does have side effects — it increments `push_count` and
`push_blocked_count`, so the statistics counters are not all unchanged. -/
theorem timed_push_timeout_counterexample :
    (((BoundedQueue.mkFresh 1).try_push (Event.ofPayload (.intVal 7) 0)).2.size =
      ((BoundedQueue.mkFresh 1).try_push (Event.ofPayload (.intVal 7) 0)).2.capacity) ∧
    (((BoundedQueue.mkFresh 1).try_push (Event.ofPayload (.intVal 7) 0)).2.closed = false) ∧
    ((((BoundedQueue.mkFresh 1).try_push (Event.ofPayload (.intVal 7) 0)).2.push_for
        (Event.ofPayload (.intVal 8) 0)).1 = false) ∧
    ((((BoundedQueue.mkFresh 1).try_push (Event.ofPayload (.intVal 7) 0)).2.push_for
        (Event.ofPayload (.intVal 8) 0)).2.stats ≠
      ((BoundedQueue.mkFresh 1).try_push (Event.ofPayload (.intVal 7) 0)).2.stats) := by
  refine ⟨rfl, rfl, rfl, ?_⟩
  decide

/-- Claim C8 (amended): when `push_for` (resp. `pop_for`) returns
unsuccessfully due to timeout, the queue's contents, size, head/tail
positions and closed flag are unchanged, and the only statistics that
change are `push_count`/`push_blocked_count` (resp.
`pop_count`/`pop_blocked_count`), each incremented by exactly one. -/
theorem timed_ops_timeout_frame :
    (∀ (q : BoundedQueue) (e : Event), q.size = q.capacity → q.closed = false →
      q.push_for e = (false,
        { q with stats := { q.stats with
            push_count := q.stats.push_count + 1
            push_blocked_count := q.stats.push_blocked_count + 1 } })) ∧
    (∀ q : BoundedQueue, q.size = 0 → q.closed = false →
      q.pop_for = (none,
        { q with stats := { q.stats with
            pop_count := q.stats.pop_count + 1
            pop_blocked_count := q.stats.pop_blocked_count + 1 } })) := by
  constructor
  · intro q e hfull hopen
    simp only [BoundedQueue.push_for]
    rw [if_neg]
    intro hc
    rcases hc with hlt | hcl
    · omega
    · rw [hopen] at hcl; exact Bool.noConfusion hcl
  · intro q hempty hopen
    simp only [BoundedQueue.pop_for]
    rw [if_neg]
    intro hc
    rcases hc with hlt | hcl
    · omega
    · rw [hopen] at hcl; exact Bool.noConfusion hcl

/-- Witness for C8: a full capacity-1 queue times out on `push_for` with
exactly the two push counters bumped; a fresh empty queue times out on
`pop_for` with exactly the two pop counters bumped. -/
theorem timed_ops_timeout_frame_witness :
    ((((BoundedQueue.mkFresh 1).try_push (Event.ofPayload (.intVal 7) 0)).2.push_for
        (Event.ofPayload (.intVal 8) 0)).2.stats.push_blocked_count = 1) ∧
    (((BoundedQueue.mkFresh 4).pop_for).2.stats.pop_blocked_count = 1) := by
  constructor
  · rw [timed_ops_timeout_frame.1
      ((BoundedQueue.mkFresh 1).try_push (Event.ofPayload (.intVal 7) 0)).2
      (Event.ofPayload (.intVal 8) 0) (by decide) (by decide)]
    rfl
  · rw [timed_ops_timeout_frame.2 (BoundedQueue.mkFresh 4) (by decide) (by decide)]
    rfl

/-! ## Claim C9 -/

/-- Claim C9: `AggregatingSink::consume` with a double payload adds the
value truncated toward zero to `sum` and increments `count` but leaves
`min` and `max` unchanged; with a payload that is neither int64 nor double
the whole state is unchanged. -/
theorem aggregatingSink_consume_spec :
    (∀ (s : AggregatingSink) (e : Event) (d : Rat), e.payload = .floatVal d →
      (s.consume e).sum = s.sum + truncToInt d ∧
      (s.consume e).count = s.count + 1 ∧
      (s.consume e).min = s.min ∧
      (s.consume e).max = s.max) ∧
    (∀ (s : AggregatingSink) (e : Event),
      (∀ v, e.payload ≠ .intVal v) → (∀ d, e.payload ≠ .floatVal d) →
      s.consume e = s) := by
  constructor
  · intro s e d h
    simp [AggregatingSink.consume, h]
  · intro s e hi hf
    cases hp : e.payload with
    | intVal v => exact absurd hp (hi v)
    | floatVal d => exact absurd hp (hf d)
    | _ => simp [AggregatingSink.consume, hp]

/-- Witness for C9: a fresh sink consuming a 3.5 double gains
trunc(3.5) = 3 on `sum` and one on `count`, with extremes untouched; a
string event changes nothing. -/
theorem aggregatingSink_consume_spec_witness :
    ((AggregatingSink.mk'.consume (Event.ofPayload (.floatVal (7 / 2)) 0)).sum =
        AggregatingSink.mk'.sum + truncToInt (7 / 2) ∧
      (AggregatingSink.mk'.consume (Event.ofPayload (.floatVal (7 / 2)) 0)).count =
        AggregatingSink.mk'.count + 1 ∧
      (AggregatingSink.mk'.consume (Event.ofPayload (.floatVal (7 / 2)) 0)).min =
        AggregatingSink.mk'.min ∧
      (AggregatingSink.mk'.consume (Event.ofPayload (.floatVal (7 / 2)) 0)).max =
        AggregatingSink.mk'.max) ∧
    AggregatingSink.mk'.consume (Event.ofPayload (.strVal "x") 0) = AggregatingSink.mk' := by
  constructor
  · exact aggregatingSink_consume_spec.1 AggregatingSink.mk'
      (Event.ofPayload (.floatVal (7 / 2)) 0) (7 / 2) rfl
  · exact aggregatingSink_consume_spec.2 AggregatingSink.mk'
      (Event.ofPayload (.strVal "x") 0)
      (fun v h => Payload.noConfusion h)
      (fun d h => Payload.noConfusion h)

end KLStream
